import Mathlib

/-!
Verification development for the vector-store backend of the easegress
AI-gateway middleware: the `vectordb` dispatch layer (`New`, `ValidateSpec`)
and the `redisvector` engine (`RedisClient` command construction, insertion,
batch insertion, search-result conversion, index lifecycle).

Shallow embedding conventions:
* Go strings that carry binary vector payloads are modelled as byte lists
  (`List Nat`, each entry < 256); textual Go strings are Lean `String`s.
* `float32` / `float64` vector components are represented by their IEEE-754
  bit patterns (`Nat`), since the Go code (`math.Float32bits`,
  `binary.LittleEndian.PutUint32`) only ever manipulates those bit patterns.
* Go maps (`map[string]any`, `map[string]string`) are association lists with
  Go map assignment semantics (`mset`: replace if present, else add);
  Go's unspecified map iteration order is determinized to list order, and no
  theorem below depends on that order beyond membership.
* `uuid.New().String()` is modelled by a generator `gen : Nat → String`
  threaded through a counter, consumed once per fresh identifier.
* The rueidis client's command execution is modelled by a parameter
  `exec : RedisArbitraryCommand → Option GoErr` (`none` = the command
  succeeded, `some e` = it failed), and `DoMulti` as `exec` mapped over the
  pipelined command list.
* Go field names that Lean reserves or that the development cannot use are
  renamed: the Go struct field `Type` is `typeTag`, and the Go `Index` field
  holding the key pattern `"<index>:"` is `keyPat` (built by `getPfx`, the
  embedding of the Go helper that appends a colon to the index name).
-/

namespace EG

/-- A Go `error` value: either a leaf error message or the wrapper produced
by `errors.Join` around a list of errors. `Option GoErr` models a Go error
return, `none` being `nil`. -/
inductive GoErr where
  | msg (s : String)
  | joined (errs : List GoErr)

/-- `errors.Join` applied to a list of (non-nil) collected errors: returns
`nil` when the list is empty, otherwise one error wrapping all of them. -/
def errorsJoin (errs : List GoErr) : Option GoErr :=
  if errs.isEmpty then none else some (GoErr.joined errs)

/-! ## Vector encoding (`float32VectorToString`, `float64VectorToString`) -/

/-- `binary.LittleEndian.PutUint32`: the four bytes of a 32-bit word,
least significant first (`byte(v)`, `byte(v>>8)`, `byte(v>>16)`,
`byte(v>>24)`). -/
def putUint32LE (b : Nat) : List Nat :=
  [b % 256, b / 256 % 256, b / 65536 % 256, b / 16777216 % 256]

/-- `binary.LittleEndian.PutUint64`: the eight bytes of a 64-bit word,
least significant first. -/
def putUint64LE (b : Nat) : List Nat :=
  [b % 256, b / 256 % 256, b / 65536 % 256, b / 16777216 % 256,
   b / 4294967296 % 256, b / 1099511627776 % 256,
   b / 281474976710656 % 256, b / 72057594037927936 % 256]

/-- `float32VectorToString`: a `[]float32` vector, given by the IEEE-754 bit
patterns of its components, encoded as the concatenation of each component's
four little-endian bytes. The Go function returns these bytes as a string;
we keep them as the byte list. -/
def float32VectorToString (v : List Nat) : List Nat :=
  v.flatMap putUint32LE

/-- `float64VectorToString`: a `[]float64` vector, given by the IEEE-754 bit
patterns of its components, encoded as the concatenation of each component's
eight little-endian bytes. -/
def float64VectorToString (v : List Nat) : List Nat :=
  v.flatMap putUint64LE

/-! ## Document values and the HMSET command builder -/

/-- A Go `any` value stored in a document map, restricted to the variants
`toHmsetCommand` distinguishes: `[]float64`, `[]float32` (by bit patterns),
and everything else, represented by a string together with its
`fmt.Sprintf("%v", v)` rendering (for a Go `string` that rendering is the
string itself). -/
inductive GoVal where
  | f64v (bits : List Nat)
  | f32v (bits : List Nat)
  | str (s : String)
  deriving DecidableEq

/-- `fmt.Sprintf("%v", v)` / `fmt.Sprintf("%s", v)` on a document value.
Vector slices never reach this formatting as identifiers in the source; for
them we fix Go's `%v` rendering abstractly as a bracketed placeholder (no
theorem depends on it). -/
def gostr : GoVal → String
  | GoVal.str s => s
  | GoVal.f64v _ => "[float64 slice]"
  | GoVal.f32v _ => "[float32 slice]"

/-- Go map read `m[k]` on a string-keyed map modelled as an association
list with unique keys: the value of the binding of `k`, if any. -/
def mget {α : Type} (m : List (String × α)) (k : String) : Option α :=
  (m.find? (fun p => p.1 = k)).map Prod.snd

/-- Go map write `m[k] = v`: replace the binding of `k` if present,
otherwise add a new binding. -/
def mset {α : Type} : List (String × α) → String → α → List (String × α)
  | [], k, v => [(k, v)]
  | p :: ps, k, v => if p.1 = k then (k, v) :: ps else p :: mset ps k v

/-- A document `map[string]any`, as an association list with unique keys
(field name, value). -/
abbrev Doc := List (String × GoVal)

/-- One argument of a Redis command: either a textual Go string or a binary
vector payload (a byte list). -/
inductive Arg where
  | txt (s : String)
  | bin (bytes : List Nat)
  deriving DecidableEq

/-- `RedisArbitraryCommand`: one wire command as a command-name list, a key
list and an argument list, exactly the three fields of the Go struct. -/
structure RedisArbitraryCommand where
  Commands : List String
  Keys : List String
  Args : List Arg

/-- The two command arguments (field name, serialized value) contributed by
one document field in `toHmsetCommand`'s serialization loop: vector-typed
values use the binary encodings, everything else its `%v` string. -/
def serializeField (kv : String × GoVal) : List Arg :=
  match kv.2 with
  | GoVal.f64v bits => [Arg.txt kv.1, Arg.bin (float64VectorToString bits)]
  | GoVal.f32v bits => [Arg.txt kv.1, Arg.bin (float32VectorToString bits)]
  | GoVal.str s => [Arg.txt kv.1, Arg.txt s]

/-- `toHmsetCommand prefixArg doc`: builds the HMSET upsert command for one
document. Mirrors the Go source: first the serialization loop over the
document's fields builds `Args`; only afterwards is the storage key chosen —
the explicit `id` field if present, else the `keys` field (promoted to `id`
by mutating the document), else a fresh identifier `gen ctr` (also written
into the document). Returns the command, the possibly mutated document, and
the advanced generator counter. -/
def toHmsetCommand (gen : Nat → String) (ctr : Nat) (pfx : String) (doc : Doc) :
    RedisArbitraryCommand × Doc × Nat :=
  let args := doc.flatMap serializeField
  match mget doc "id" with
  | some idv =>
      (⟨["HMSET"], [pfx ++ ":" ++ gostr idv], args⟩, doc, ctr)
  | none =>
      match mget doc "keys" with
      | some kv =>
          (⟨["HMSET"], [pfx ++ ":" ++ gostr kv], args⟩, mset doc "id" kv, ctr)
      | none =>
          (⟨["HMSET"], [pfx ++ ":" ++ gen ctr], args⟩,
            mset doc "id" (GoVal.str (gen ctr)), ctr + 1)

/-- The identifier `toHmsetCommand` chooses for a document: explicit `id`
field first, else the `keys` field, else the fresh identifier `gen ctr`.
Specification-level companion of `toHmsetCommand`, used to state alignment
theorems. -/
def chosenId (gen : Nat → String) (ctr : Nat) (doc : Doc) : String :=
  match mget doc "id" with
  | some idv => gostr idv
  | none =>
      match mget doc "keys" with
      | some kv => gostr kv
      | none => gen ctr

/-- Whether a document consumes a fresh identifier (neither `id` nor `keys`
present), advancing the generator counter. -/
def consumesFresh (doc : Doc) : Bool :=
  (mget doc "id").isNone && (mget doc "keys").isNone

/-- Generator counter after serializing one document. -/
def ctrStep (ctr : Nat) (doc : Doc) : Nat :=
  if consumesFresh doc then ctr + 1 else ctr

/-- Generator counter in effect when the i-th document of a batch is
serialized: the initial counter advanced once per earlier document that
consumed a fresh identifier. -/
def ctrAt (ctr : Nat) : List Doc → Nat → Nat
  | _, 0 => ctr
  | [], _ + 1 => ctr
  | d :: ds, i + 1 => ctrAt (ctrStep ctr d) ds i

/-- `InsertWithHash`: builds the upsert command for one document and executes
it, returning `command.Keys[0]` (the storage key) and the execution error,
plus — for the frame theorems — the mutated document and advanced counter. -/
def InsertWithHash (exec : RedisArbitraryCommand → Option GoErr)
    (gen : Nat → String) (ctr : Nat) (index : String) (doc : Doc) :
    String × Option GoErr × Doc × Nat :=
  let r := toHmsetCommand gen ctr index doc
  (r.1.Keys.headD "", exec r.1, r.2.1, r.2.2)

/-- The loop of `InsertManyWithHash` that builds, in input order, the
pipelined command list and the `docIDs` list (`command.Keys[0]` per
document), threading the fresh-identifier counter. -/
def buildBatch (gen : Nat → String) (index : String) :
    List Doc → Nat → List RedisArbitraryCommand × List String × Nat
  | [], ctr => ([], [], ctr)
  | d :: ds, ctr =>
      let r := toHmsetCommand gen ctr index d
      let rest := buildBatch gen index ds r.2.2
      (r.1 :: rest.1, r.1.Keys.headD "" :: rest.2.1, rest.2.2)

/-- `InsertManyWithHash`: builds one upsert command per document, submits
them as one pipelined batch (`DoMulti`, modelled as `exec` applied to every
command), collects the non-nil per-command errors from all responses, and
returns the `docIDs` list together with `errors.Join` of the collected
errors. -/
def InsertManyWithHash (exec : RedisArbitraryCommand → Option GoErr)
    (gen : Nat → String) (ctr : Nat) (index : String) (docs : List Doc) :
    List String × Option GoErr :=
  let b := buildBatch gen index docs ctr
  let errs := (b.1.map exec).filterMap id
  (b.2.1, errorsJoin errs)

/-! ## Search-result conversion (`convertFTSearchResIntoMapSchema`) -/

/-- A rueidis `FtSearchDoc`: the row's native store key and its field map
(`map[string]string`), as an association list. -/
structure FtSearchDoc where
  Key : String
  Doc : List (String × String)

/-- A value of the generic document mapping `Find` produces: every field
passes through as its string, except `score`, which holds a `float32` given
by its IEEE-754 bit pattern. -/
inductive RVal where
  | str (s : String)
  | f32 (bits : Nat)
  deriving DecidableEq

/-- `strconv.ParseFloat(s, 32)` followed by the `float32` conversion,
abstracted: `pf s = (bits, ok)` gives the bit pattern of the resulting
`float32` value and whether the parse returned a nil error. Go's contract
makes `bits = 0` whenever `s` is not syntactically a floating-point number.
The conversion code discards the error component. -/
abbrev ParseF32 := String → Nat × Bool

/-- One iteration of the field loop of `convertFTSearchResIntoMapSchema`: a
field named `distance` is written to the map as `score`, parsed as a
float32 (the parse error is discarded); every other field is written under
its own name as its string. -/
def convStep (pf : ParseF32) (m : List (String × RVal))
    (kv : String × String) : List (String × RVal) :=
  if kv.1 = "distance" then mset m "score" (RVal.f32 (pf kv.2).1)
  else mset m kv.1 (RVal.str kv.2)

/-- The field loop of `convertFTSearchResIntoMapSchema` over one row. -/
def convertRowFields (pf : ParseF32) (fields : List (String × String)) :
    List (String × RVal) :=
  fields.foldl (convStep pf) []

/-- The map key one search-result field writes during conversion: `score`
for the `distance` field, the field's own name otherwise. -/
def writeKey (kv : String × String) : String :=
  if kv.1 = "distance" then "score" else kv.1

/-- One row of `convertFTSearchResIntoMapSchema`: convert the fields, then,
when the map has no `id` entry, add `id` mapped to the row's native key. -/
def convertRow (pf : ParseF32) (d : FtSearchDoc) : List (String × RVal) :=
  let m := convertRowFields pf d.Doc
  if (mget m "id").isSome then m else mset m "id" (RVal.str d.Key)

/-- `convertFTSearchResIntoMapSchema`: every search-result row converted to
a generic document mapping; total — no error is ever produced. -/
def convertFTSearchResIntoMapSchema (pf : ParseF32) (docs : List FtSearchDoc) :
    List (List (String × RVal)) :=
  docs.map (convertRow pf)

/-! ## Index lifecycle (`CheckIndexExists`, `CreateIndexIfNotExists`)

The Redis search module backing the client is modelled as a deterministic
store state holding the set of created indexes with their definitions:
`FT.INFO` succeeds exactly on an existing index, and executing an
`FT.CREATE` definition command records the index. -/

/-- Modelled from the spec: the logical shape of a similarity index (field
list, vector dimensionality, distance metric); the `IndexSchema` Go type is
declared outside the analysed sources, and no claim depends on its fields. -/
structure IndexSchema where
  fields : List String
  dims : Nat
  metric : String
  deriving DecidableEq

/-- `getPrefix` in the Go source: the key pattern derived from the index
name, `"<index>:"`. (Renamed: the development cannot use the Go name.) -/
def getPfx (index : String) : String := index ++ ":"

/-- The Go `Index` struct: name, schema, key patterns, index type. The Go
field holding the key patterns is named for the key pattern it stores. -/
structure Index where
  Name : String
  Schema : IndexSchema
  keyPat : List String
  IndexType : String
  deriving DecidableEq

/-- Modelled from the spec: `Index.ToCommand` (declared outside the analysed
sources) builds the native index-definition command `FT.CREATE` carrying the
index name, storage type, key patterns and schema fields. Only the fact that
executing it creates exactly this index matters to the claims. -/
def Index.ToCommand (idx : Index) : RedisArbitraryCommand :=
  { Commands := ["FT.CREATE"]
    Keys := [idx.Name]
    Args := Arg.txt "ON" :: Arg.txt idx.IndexType ::
      idx.keyPat.map Arg.txt ++ idx.Schema.fields.map Arg.txt }

/-- The state of the backing store that index commands observe: the created
indexes, by name. -/
structure RedisStore where
  indexes : List (String × Index)

/-- Store semantics of the `FT.INFO` probe: it returns a nil error exactly
when the index has been created. -/
def RedisStore.hasIndex (st : RedisStore) (index : String) : Bool :=
  (st.indexes.find? (fun p => p.1 = index)).isSome

/-- Store semantics of executing an index-definition command built from
`idx`: the index is recorded; creating an absent index succeeds. -/
def RedisStore.execCreate (st : RedisStore) (idx : Index) :
    RedisStore × Option GoErr :=
  (⟨(idx.Name, idx) :: st.indexes⟩, none)

/-- `CheckIndexExists`: an empty index name reports absent; otherwise the
`FT.INFO` probe's error is nil exactly when the index exists. -/
def CheckIndexExists (st : RedisStore) (index : String) : Bool :=
  if index = "" then false else st.hasIndex index

/-- `CreateIndexIfNotExists`: rejects an empty name; probes existence and
returns success immediately when the index exists; otherwise builds the
`Index` value (hash storage, key pattern `"<index>:"`), its definition
command, and executes it. Besides the final store state and error, the
model returns the list of index-definition commands issued, to express that
the existing-index path issues none. -/
def CreateIndexIfNotExists (st : RedisStore) (index : String)
    (schema : IndexSchema) :
    RedisStore × Option GoErr × List RedisArbitraryCommand :=
  if index = "" then (st, some (GoErr.msg "empty index name"), [])
  else if CheckIndexExists st index then (st, none, [])
  else
    let redisIndex : Index := ⟨index, schema, [getPfx index], "HASH"⟩
    let command := redisIndex.ToCommand
    let r := st.execCreate redisIndex
    (r.1, r.2, [command])

/-! ## Vector-store dispatch (`New`, `ValidateSpec`) -/

/-- Modelled from the spec: Redis-specific connection and schema parameters
(`RedisVectorDBSpec` is declared outside the analysed sources; no claim
depends on its fields). -/
structure RedisVectorDBSpec where
  params : List (String × String)

/-- Modelled from the spec: Postgres-specific connection and schema
parameters (declared outside the analysed sources). -/
structure PostgresVectorDBSpec where
  params : List (String × String)

/-- `CommonSpec`: the store-agnostic parameters of every vector store. The
Go field `Type` is `typeTag` here (Lean reserves `Type`); the `float64`
threshold is modelled as a rational — every non-NaN float is one, and the
source's comparisons against `0` and `1.0` are exact on it. -/
structure CommonSpec where
  typeTag : String
  Threshold : Rat

/-- The `Spec` struct of the `vectordb` package: the embedded `CommonSpec`
plus the optional engine sub-specs. -/
structure Spec where
  common : CommonSpec
  Redis : Option RedisVectorDBSpec
  Postgres : Option PostgresVectorDBSpec

/-- The store type tag for Redis. -/
def TypeRedis : String := "redis"

/-- The store type tag for Postgres. -/
def TypePostgres : String := "postgres"

/-- Modelled from the spec: the `VectorDB` handle a concrete engine
constructor returns (`redisvector.New` / `pgvector.New` are declared outside
the analysed sources); only which engine was picked matters to the claims. -/
inductive VectorDB where
  | redis (c : CommonSpec) (s : Option RedisVectorDBSpec)
  | postgres (c : CommonSpec) (s : Option PostgresVectorDBSpec)

/-- A Go call that either returns normally or panics: `New`'s default branch
panics instead of returning an error value. -/
inductive NewResult where
  | ok (db : VectorDB)
  | panicked (msg : String)

/-- `New`: dispatches on the spec's type tag to the matching engine
constructor; an unrecognized tag panics. -/
def New (spec : Spec) : NewResult :=
  if spec.common.typeTag = TypeRedis then
    NewResult.ok (VectorDB.redis spec.common spec.Redis)
  else if spec.common.typeTag = TypePostgres then
    NewResult.ok (VectorDB.postgres spec.common spec.Postgres)
  else NewResult.panicked "not supported vector db type"

/-- `ValidateSpec`: rejects a threshold outside `(0, 1]`, then dispatches on
the type tag to the engine-specific validator (`redisvector.ValidateSpec` /
`pgvector.ValidateSpec` are declared outside the analysed sources and are
parameters here); an unrecognized tag is an ordinary error value. -/
def ValidateSpec (redisValidate : Option RedisVectorDBSpec → Option GoErr)
    (pgValidate : Option PostgresVectorDBSpec → Option GoErr)
    (spec : Spec) : Option GoErr :=
  if spec.common.Threshold ≤ 0 ∨ 1 < spec.common.Threshold then
    some (GoErr.msg "invalid threshold")
  else if spec.common.typeTag = TypeRedis then redisValidate spec.Redis
  else if spec.common.typeTag = TypePostgres then pgValidate spec.Postgres
  else some (GoErr.msg "invalid spec type")

/-! ## Map lemmas -/

theorem mget_mset_self {α : Type} (m : List (String × α)) (k : String) (v : α) :
    mget (mset m k v) k = some v := by
  induction m with
  | nil => simp [mget, mset]
  | cons p ps ih =>
      by_cases hp : p.1 = k
      · simp [mget, mset, hp]
      · simpa [mget, mset, hp] using ih

theorem mget_mset_ne {α : Type} (m : List (String × α)) (k k' : String) (v : α)
    (h : k' ≠ k) : mget (mset m k v) k' = mget m k' := by
  induction m with
  | nil =>
      have hkk : ¬ (k = k') := fun hkk => h hkk.symm
      simp [mget, mset, hkk]
  | cons p ps ih =>
      by_cases hp : p.1 = k
      · have hpk : ¬ (p.1 = k') := by
          rw [hp]
          exact fun hkk => h hkk.symm
        have hkk : ¬ (k = k') := fun hkk => h hkk.symm
        rw [mset, if_pos hp]
        simp [mget, List.find?_cons, hpk, hkk]
      · rw [mset, if_neg hp]
        by_cases hp' : p.1 = k'
        · simp [mget, List.find?_cons, hp']
        · have e1 : mget (p :: mset ps k v) k' = mget (mset ps k v) k' := by
            simp [mget, List.find?_cons, hp']
          have e2 : mget (p :: ps) k' = mget ps k' := by
            simp [mget, List.find?_cons, hp']
          rw [e1, e2, ih]

/-! ## C3: binary vector encoding -/

theorem flatMap_length_fixed (f : Nat → List Nat) (w : Nat)
    (hw : ∀ x, (f x).length = w) :
    ∀ v : List Nat, (v.flatMap f).length = w * v.length
  | [] => by simp
  | x :: xs => by
      have ih := flatMap_length_fixed f w hw xs
      simp only [List.flatMap_cons, List.length_append, hw x, ih,
        List.length_cons]
      ring

theorem flatMap_getElem_fixed (f : Nat → List Nat) (w : Nat)
    (hw : ∀ x, (f x).length = w) :
    ∀ (v : List Nat) (i j : Nat) (hi : i < v.length), j < w →
      (v.flatMap f)[w * i + j]? = (f v[i])[j]?
  | [], i, _, hi, _ => absurd hi (by simp)
  | x :: xs, 0, j, _, hj => by
      simp only [List.flatMap_cons, Nat.mul_zero, Nat.zero_add]
      rw [List.getElem?_append_left (by rw [hw x]; exact hj)]
      simp
  | x :: xs, i + 1, j, hi, hj => by
      simp only [List.flatMap_cons]
      have hle : (f x).length ≤ w * (i + 1) + j := by
        rw [hw x, Nat.mul_succ]
        omega
      rw [List.getElem?_append_right hle]
      have harith : w * (i + 1) + j - (f x).length = w * i + j := by
        rw [hw x, Nat.mul_succ]
        omega
      rw [harith]
      have hi' : i < xs.length := by simpa using Nat.lt_of_succ_lt_succ hi
      have := flatMap_getElem_fixed f w hw xs i j hi' hj
      simpa using this

theorem putUint32LE_getElem (x j : Nat) (hj : j < 4) :
    (putUint32LE x)[j]? = some (x / 256 ^ j % 256) := by
  interval_cases j <;> simp [putUint32LE]

theorem putUint64LE_getElem (x j : Nat) (hj : j < 8) :
    (putUint64LE x)[j]? = some (x / 256 ^ j % 256) := by
  interval_cases j <;> simp [putUint64LE]

/-- C3: the encoding of a `[]float32` vector of length n has exactly 4·n
bytes, with component i occupying bytes [4i, 4i+4) as the little-endian
bytes of its IEEE-754 bit pattern; likewise a `[]float64` vector encodes to
8·n bytes with component i at [8i, 8i+8) little-endian. -/
theorem claim_C3 (v32 v64 : List Nat) (i j : Nat) :
    (float32VectorToString v32).length = 4 * v32.length
    ∧ (float64VectorToString v64).length = 8 * v64.length
    ∧ (∀ hi : i < v32.length, j < 4 →
        (float32VectorToString v32)[4 * i + j]? = some (v32[i] / 256 ^ j % 256))
    ∧ (∀ hi : i < v64.length, j < 8 →
        (float64VectorToString v64)[8 * i + j]? = some (v64[i] / 256 ^ j % 256)) := by
  refine ⟨flatMap_length_fixed putUint32LE 4 (fun _ => rfl) v32,
    flatMap_length_fixed putUint64LE 8 (fun _ => rfl) v64, ?_, ?_⟩
  · intro hi hj
    rw [float32VectorToString,
      flatMap_getElem_fixed putUint32LE 4 (fun _ => rfl) v32 i j hi hj,
      putUint32LE_getElem _ j hj]
  · intro hi hj
    rw [float64VectorToString,
      flatMap_getElem_fixed putUint64LE 8 (fun _ => rfl) v64 i j hi hj,
      putUint64LE_getElem _ j hj]

theorem claim_C3_witness :
    (float32VectorToString [258]).length = 4 * 1
    ∧ (float32VectorToString [258])[1]? = some 1
    ∧ (float64VectorToString [258])[1]? = some 1 := by
  have h := claim_C3 [258] [258] 0 1
  refine ⟨h.1, ?_, ?_⟩
  · have := h.2.2.1 (by decide) (by decide)
    simpa using this
  · have := h.2.2.2 (by decide) (by decide)
    simpa using this

/-! ## Identifier choice and document mutation (C2, C9, C8) -/

theorem toHmsetCommand_Keys (gen : Nat → String) (ctr : Nat) (pfx : String)
    (doc : Doc) :
    (toHmsetCommand gen ctr pfx doc).1.Keys
      = [pfx ++ ":" ++ chosenId gen ctr doc] := by
  cases h1 : mget doc "id" with
  | some v => simp [toHmsetCommand, chosenId, h1]
  | none =>
      cases h2 : mget doc "keys" with
      | some v => simp [toHmsetCommand, chosenId, h1, h2]
      | none => simp [toHmsetCommand, chosenId, h1, h2]

theorem toHmsetCommand_ctr (gen : Nat → String) (ctr : Nat) (pfx : String)
    (doc : Doc) :
    (toHmsetCommand gen ctr pfx doc).2.2 = ctrStep ctr doc := by
  cases h1 : mget doc "id" with
  | some v => simp [toHmsetCommand, ctrStep, consumesFresh, h1]
  | none =>
      cases h2 : mget doc "keys" with
      | some v => simp [toHmsetCommand, ctrStep, consumesFresh, h1, h2]
      | none => simp [toHmsetCommand, ctrStep, consumesFresh, h1, h2]

theorem toHmsetCommand_Args (gen : Nat → String) (ctr : Nat) (pfx : String)
    (doc : Doc) :
    (toHmsetCommand gen ctr pfx doc).1.Args = doc.flatMap serializeField := by
  cases h1 : mget doc "id" with
  | some v => simp [toHmsetCommand, h1]
  | none =>
      cases h2 : mget doc "keys" with
      | some v => simp [toHmsetCommand, h1, h2]
      | none => simp [toHmsetCommand, h1, h2]

/-- C2: the identifier used by `InsertWithHash` via `toHmsetCommand` is
chosen by priority — the explicit `id` field, else the `keys` field
(promoted to `id`), else a freshly generated identifier — and the returned
storage key is exactly `"<index>:<id>"` for the chosen identifier. -/
theorem claim_C2 (exec : RedisArbitraryCommand → Option GoErr)
    (gen : Nat → String) (ctr : Nat) (index : String) (doc : Doc) :
    (∀ v, mget doc "id" = some v →
      (toHmsetCommand gen ctr index doc).1.Keys = [index ++ ":" ++ gostr v])
    ∧ (∀ v, mget doc "id" = none → mget doc "keys" = some v →
      (toHmsetCommand gen ctr index doc).1.Keys = [index ++ ":" ++ gostr v]
      ∧ mget (toHmsetCommand gen ctr index doc).2.1 "id" = some v)
    ∧ (mget doc "id" = none → mget doc "keys" = none →
      (toHmsetCommand gen ctr index doc).1.Keys = [index ++ ":" ++ gen ctr])
    ∧ (InsertWithHash exec gen ctr index doc).1
        = index ++ ":" ++ chosenId gen ctr doc := by
  refine ⟨?_, ?_, ?_, ?_⟩
  · intro v h1
    simp [toHmsetCommand, h1]
  · intro v h1 h2
    constructor
    · simp [toHmsetCommand, h1, h2]
    · simp only [toHmsetCommand, h1, h2]
      exact mget_mset_self doc "id" v
  · intro h1 h2
    simp [toHmsetCommand, h1, h2]
  · rw [InsertWithHash]
    simp [toHmsetCommand_Keys]

theorem claim_C2_witness :
    (toHmsetCommand (fun _ => "u0") 0 "idx" [("id", GoVal.str "42")]).1.Keys
      = ["idx:42"] := by
  have h := claim_C2 (fun _ => none) (fun _ => "u0") 0 "idx"
    [("id", GoVal.str "42")]
  simpa using h.1 (GoVal.str "42") (by decide)

/-- C9: when the input document has no `id` field, command construction
mutates the caller's document by adding an `id` key (the `keys` value when
present, else the freshly generated identifier); when an `id` field is
already present, the caller's document is returned entirely unchanged. -/
theorem claim_C9 (gen : Nat → String) (ctr : Nat) (pfx : String) (doc : Doc) :
    (∀ v, mget doc "id" = some v → (toHmsetCommand gen ctr pfx doc).2.1 = doc)
    ∧ (∀ v, mget doc "id" = none → mget doc "keys" = some v →
      mget (toHmsetCommand gen ctr pfx doc).2.1 "id" = some v
      ∧ ∀ k, k ≠ "id" →
          mget (toHmsetCommand gen ctr pfx doc).2.1 k = mget doc k)
    ∧ (mget doc "id" = none → mget doc "keys" = none →
      mget (toHmsetCommand gen ctr pfx doc).2.1 "id"
          = some (GoVal.str (gen ctr))
      ∧ ∀ k, k ≠ "id" →
          mget (toHmsetCommand gen ctr pfx doc).2.1 k = mget doc k) := by
  refine ⟨?_, ?_, ?_⟩
  · intro v h1
    simp [toHmsetCommand, h1]
  · intro v h1 h2
    simp only [toHmsetCommand, h1, h2]
    exact ⟨mget_mset_self doc "id" v, fun k hk => mget_mset_ne doc "id" k _ hk⟩
  · intro h1 h2
    simp only [toHmsetCommand, h1, h2]
    exact ⟨mget_mset_self doc "id" _, fun k hk => mget_mset_ne doc "id" k _ hk⟩

theorem claim_C9_witness :
    mget (toHmsetCommand (fun _ => "u0") 0 "idx"
        [("keys", GoVal.str "k1"), ("text", GoVal.str "t")]).2.1 "id"
      = some (GoVal.str "k1")
    ∧ mget (toHmsetCommand (fun _ => "u0") 0 "idx"
        [("keys", GoVal.str "k1"), ("text", GoVal.str "t")]).2.1 "text"
      = some (GoVal.str "t") := by
  have h := claim_C9 (fun _ => "u0") 0 "idx"
    [("keys", GoVal.str "k1"), ("text", GoVal.str "t")]
  have h2 := h.2.1 (GoVal.str "k1") (by decide) (by decide)
  exact ⟨h2.1, by rw [h2.2 "text" (by decide)]; decide⟩

/-- C8 as stated is false: the serialization loop runs before the identifier
is assigned, so a freshly generated identifier never appears among the
command's serialized field arguments — here the chosen identifier is `u0`
(the key is `idx:u0`), yet no argument mentions `u0`. -/
theorem claim_C8_counterexample :
    (toHmsetCommand (fun _ => "u0") 0 "idx"
        [("text", GoVal.str "hello")]).1.Keys = ["idx:u0"]
    ∧ Arg.txt "u0" ∉
        (toHmsetCommand (fun _ => "u0") 0 "idx"
          [("text", GoVal.str "hello")]).1.Args
    ∧ Arg.txt "id" ∉
        (toHmsetCommand (fun _ => "u0") 0 "idx"
          [("text", GoVal.str "hello")]).1.Args := by
  decide

/-- C8 amended: the upsert command's field arguments serialize exactly the
fields present in the document when the command is built; the chosen
identifier is always carried by the storage key, and it appears among the
serialized arguments only when the document already contained it — an `id`
field is serialized when explicitly present, while a promoted `keys` value
is serialized under the name `keys`, and a freshly generated identifier
(absent from the document's serialized fields) is not serialized at all. -/
theorem claim_C8_amended (gen : Nat → String) (ctr : Nat) (pfx : String)
    (doc : Doc) :
    (toHmsetCommand gen ctr pfx doc).1.Args = doc.flatMap serializeField
    ∧ (toHmsetCommand gen ctr pfx doc).1.Keys
        = [pfx ++ ":" ++ chosenId gen ctr doc]
    ∧ (mget doc "id" ≠ none → Arg.txt "id" ∈
        (toHmsetCommand gen ctr pfx doc).1.Args)
    ∧ (mget doc "id" = none → mget doc "keys" = none →
        Arg.txt (gen ctr) ∉ doc.flatMap serializeField →
        Arg.txt (gen ctr) ∉ (toHmsetCommand gen ctr pfx doc).1.Args) := by
  refine ⟨toHmsetCommand_Args gen ctr pfx doc,
    toHmsetCommand_Keys gen ctr pfx doc, ?_, ?_⟩
  · intro h1
    rw [toHmsetCommand_Args]
    cases hfind : doc.find? (fun p => p.1 = "id") with
    | none => exact absurd (by simp [mget, hfind]) h1
    | some p =>
        have hmem := List.mem_of_find?_eq_some hfind
        have hkey : p.1 = "id" := by
          have := List.find?_some hfind
          simpa using this
        have : Arg.txt p.1 ∈ serializeField p := by
          cases hv : p.2 <;> simp [serializeField, hv]
        rw [hkey] at this
        exact List.mem_flatMap.mpr ⟨p, hmem, this⟩
  · intro _ _ habs
    rw [toHmsetCommand_Args]
    exact habs

theorem claim_C8_amended_witness :
    Arg.txt "id" ∈ (toHmsetCommand (fun _ => "u0") 0 "idx"
      [("id", GoVal.str "42")]).1.Args := by
  have h := claim_C8_amended (fun _ => "u0") 0 "idx" [("id", GoVal.str "42")]
  exact h.2.2.1 (by decide)

/-! ## C1: batch insertion -/

theorem errorsJoin_eq_none_iff (l : List GoErr) : errorsJoin l = none ↔ l = [] := by
  unfold errorsJoin
  split <;> simp_all

theorem buildBatch_cmds_length (gen : Nat → String) (index : String) :
    ∀ (docs : List Doc) (ctr : Nat),
      (buildBatch gen index docs ctr).1.length = docs.length
  | [], _ => rfl
  | d :: ds, ctr => by
      simp [buildBatch, buildBatch_cmds_length gen index ds]

theorem buildBatch_ids_length (gen : Nat → String) (index : String) :
    ∀ (docs : List Doc) (ctr : Nat),
      (buildBatch gen index docs ctr).2.1.length = docs.length
  | [], _ => rfl
  | d :: ds, ctr => by
      simp [buildBatch, buildBatch_ids_length gen index ds]

theorem buildBatch_cmd_getElem (gen : Nat → String) (index : String) :
    ∀ (docs : List Doc) (ctr i : Nat) (hi : i < docs.length),
      (buildBatch gen index docs ctr).1[i]? =
        some (toHmsetCommand gen (ctrAt ctr docs i) index docs[i]).1
  | [], _, i, hi => absurd hi (by simp)
  | d :: ds, ctr, 0, _ => by
      simp [buildBatch, ctrAt]
  | d :: ds, ctr, i + 1, hi => by
      have hi' : i < ds.length := by simpa using Nat.lt_of_succ_lt_succ hi
      have ih := buildBatch_cmd_getElem gen index ds (ctrStep ctr d) i hi'
      simp only [buildBatch, List.getElem?_cons_succ, List.getElem_cons_succ]
      rw [toHmsetCommand_ctr]
      exact ih

theorem buildBatch_id_getElem (gen : Nat → String) (index : String) :
    ∀ (docs : List Doc) (ctr i : Nat) (hi : i < docs.length),
      (buildBatch gen index docs ctr).2.1[i]? =
        some (index ++ ":" ++ chosenId gen (ctrAt ctr docs i) docs[i])
  | [], _, i, hi => absurd hi (by simp)
  | d :: ds, ctr, 0, _ => by
      simp [buildBatch, ctrAt, toHmsetCommand_Keys]
  | d :: ds, ctr, i + 1, hi => by
      have hi' : i < ds.length := by simpa using Nat.lt_of_succ_lt_succ hi
      have ih := buildBatch_id_getElem gen index ds (ctrStep ctr d) i hi'
      simp only [buildBatch, List.getElem?_cons_succ, List.getElem_cons_succ]
      rw [toHmsetCommand_ctr]
      exact ih

/-- C1: `InsertManyWithHash` builds exactly one upsert command per document,
returns one assigned identifier per document positionally aligned with the
input (the storage key `"<index>:<id>"` for the i-th document's chosen
identifier), submits the whole batch (every command is executed, so a
failure does not abort the rest), and returns `errors.Join` of all
individual command failures — `nil` exactly when every command succeeded. -/
theorem claim_C1 (exec : RedisArbitraryCommand → Option GoErr)
    (gen : Nat → String) (ctr : Nat) (index : String) (docs : List Doc) :
    ((InsertManyWithHash exec gen ctr index docs).1.length = docs.length)
    ∧ ((buildBatch gen index docs ctr).1.length = docs.length)
    ∧ (∀ i, ∀ hi : i < docs.length,
        (InsertManyWithHash exec gen ctr index docs).1[i]? =
          some (index ++ ":" ++ chosenId gen (ctrAt ctr docs i) docs[i]))
    ∧ (∀ i, ∀ hi : i < docs.length,
        (buildBatch gen index docs ctr).1[i]? =
          some (toHmsetCommand gen (ctrAt ctr docs i) index docs[i]).1)
    ∧ ((InsertManyWithHash exec gen ctr index docs).2 = none ↔
        ∀ c ∈ (buildBatch gen index docs ctr).1, exec c = none)
    ∧ (∀ e, (InsertManyWithHash exec gen ctr index docs).2 = some e →
        e = GoErr.joined
          (((buildBatch gen index docs ctr).1.map exec).filterMap id)) := by
  have h1 : (InsertManyWithHash exec gen ctr index docs).1
      = (buildBatch gen index docs ctr).2.1 := rfl
  have h2 : (InsertManyWithHash exec gen ctr index docs).2
      = errorsJoin (((buildBatch gen index docs ctr).1.map exec).filterMap id) :=
    rfl
  refine ⟨?_, buildBatch_cmds_length gen index docs ctr, ?_, ?_, ?_, ?_⟩
  · rw [h1, buildBatch_ids_length]
  · intro i hi
    rw [h1]
    exact buildBatch_id_getElem gen index docs ctr i hi
  · intro i hi
    exact buildBatch_cmd_getElem gen index docs ctr i hi
  · rw [h2, errorsJoin_eq_none_iff]
    simp
  · intro e he
    rw [h2] at he
    unfold errorsJoin at he
    split at he
    · exact absurd he (by simp)
    · simpa using he.symm

theorem claim_C1_witness :
    ((InsertManyWithHash
        (fun c => if c.Keys = ["idx:a"] then some (GoErr.msg "boom") else none)
        (fun _ => "u0") 0 "idx"
        [[("id", GoVal.str "a")], [("text", GoVal.str "x")]]).1.length = 2)
    ∧ ((InsertManyWithHash
        (fun c => if c.Keys = ["idx:a"] then some (GoErr.msg "boom") else none)
        (fun _ => "u0") 0 "idx"
        [[("id", GoVal.str "a")], [("text", GoVal.str "x")]]).1[1]? =
          some "idx:u0")
    ∧ ((InsertManyWithHash
        (fun c => if c.Keys = ["idx:a"] then some (GoErr.msg "boom") else none)
        (fun _ => "u0") 0 "idx"
        [[("id", GoVal.str "a")], [("text", GoVal.str "x")]]).2.isSome
          = true) := by
  have h := claim_C1
    (fun c => if c.Keys = ["idx:a"] then some (GoErr.msg "boom") else none)
    (fun _ => "u0") 0 "idx"
    [[("id", GoVal.str "a")], [("text", GoVal.str "x")]]
  refine ⟨by simpa using h.1, ?_, ?_⟩
  · have hpos := h.2.2.1 1 (by decide)
    rw [hpos]
    rfl
  · rfl

/-! ## C5 and C10: search-result conversion -/

theorem foldl_convStep_preserve (pf : ParseF32) (k : String) :
    ∀ (fields : List (String × String)) (m : List (String × RVal)),
      (∀ kv ∈ fields, writeKey kv ≠ k) →
      mget (fields.foldl (convStep pf) m) k = mget m k
  | [], _, _ => rfl
  | kv :: fs, m, h => by
      have hk := h kv (List.mem_cons_self kv fs)
      have htail : ∀ kv' ∈ fs, writeKey kv' ≠ k :=
        fun kv' hkv' => h kv' (List.mem_cons_of_mem kv hkv')
      rw [List.foldl_cons, foldl_convStep_preserve pf k fs _ htail]
      by_cases hd : kv.1 = "distance"
      · rw [convStep, if_pos hd]
        exact mget_mset_ne m "score" k _
          (fun he => hk (by rw [writeKey, if_pos hd]; exact he.symm))
      · rw [convStep, if_neg hd]
        exact mget_mset_ne m kv.1 k _
          (fun he => hk (by rw [writeKey, if_neg hd]; exact he.symm))

theorem foldl_convStep_pass (pf : ParseF32) (k : String)
    (hk1 : k ≠ "distance") (hk2 : k ≠ "score") :
    ∀ (fields : List (String × String)) (m : List (String × RVal)),
      (fields.map Prod.fst).Nodup →
      mget (fields.foldl (convStep pf) m) k =
        (match mget fields k with
          | some s => some (RVal.str s)
          | none => mget m k)
  | [], m, _ => by simp [mget]
  | kv :: fs, m, hnd => by
      have hnotin : kv.1 ∉ fs.map Prod.fst :=
        (List.nodup_cons.mp (by simpa using hnd)).1
      have hnd' : (fs.map Prod.fst).Nodup :=
        (List.nodup_cons.mp (by simpa using hnd)).2
      rw [List.foldl_cons]
      by_cases hkk : kv.1 = k
      · have hpres : ∀ kv' ∈ fs, writeKey kv' ≠ k := by
          intro kv' hkv'
          by_cases hd : kv'.1 = "distance"
          · rw [writeKey, if_pos hd]
            exact fun he => hk2 he.symm
          · rw [writeKey, if_neg hd]
            intro he
            exact hnotin (hkk ▸ he ▸ List.mem_map_of_mem Prod.fst hkv')
        rw [foldl_convStep_preserve pf k fs _ hpres]
        have hnotd : ¬ (kv.1 = "distance") := by
          rw [hkk]
          exact hk1
        rw [convStep, if_neg hnotd, hkk, mget_mset_self]
        simp [mget, List.find?_cons, hkk]
      · have e1 : mget (kv :: fs) k = mget fs k := by
          simp [mget, List.find?_cons, hkk]
        rw [e1, foldl_convStep_pass pf k hk1 hk2 fs _ hnd']
        cases hfs : mget fs k with
        | some s => rfl
        | none =>
            by_cases hd : kv.1 = "distance"
            · rw [convStep, if_pos hd]
              exact mget_mset_ne m "score" k _ hk2
            · rw [convStep, if_neg hd]
              exact mget_mset_ne m kv.1 k _ (fun he => hkk he.symm)

theorem foldl_convStep_score (pf : ParseF32) :
    ∀ (fields : List (String × String)) (m : List (String × RVal))
      (s : String), (fields.map Prod.fst).Nodup →
      (∀ kv ∈ fields, kv.1 ≠ "score") →
      ("distance", s) ∈ fields →
      mget (fields.foldl (convStep pf) m) "score" = some (RVal.f32 (pf s).1)
  | [], _, _, _, _, hmem => absurd hmem (by simp)
  | kv :: fs, m, s, hnd, hsc, hmem => by
      have hnotin : kv.1 ∉ fs.map Prod.fst :=
        (List.nodup_cons.mp (by simpa using hnd)).1
      have hnd' : (fs.map Prod.fst).Nodup :=
        (List.nodup_cons.mp (by simpa using hnd)).2
      rw [List.foldl_cons]
      rcases List.mem_cons.mp hmem with hhead | htail
      · have h1 : kv.1 = "distance" := by rw [← hhead]
        have h2 : kv.2 = s := by rw [← hhead]
        have hpres : ∀ kv' ∈ fs, writeKey kv' ≠ "score" := by
          intro kv' hkv'
          by_cases hd : kv'.1 = "distance"
          · intro _
            exact hnotin (h1 ▸ hd ▸ List.mem_map_of_mem Prod.fst hkv')
          · rw [writeKey, if_neg hd]
            exact hsc kv' (List.mem_cons_of_mem kv hkv')
        rw [foldl_convStep_preserve pf "score" fs _ hpres, convStep,
          if_pos h1, h2, mget_mset_self]
      · exact foldl_convStep_score pf fs _ s hnd'
          (fun kv' h' => hsc kv' (List.mem_cons_of_mem kv h')) htail

theorem convertRowFields_mget (pf : ParseF32) (k : String)
    (hk1 : k ≠ "distance") (hk2 : k ≠ "score")
    (fields : List (String × String)) (hnd : (fields.map Prod.fst).Nodup) :
    mget (convertRowFields pf fields) k = (mget fields k).map RVal.str := by
  rw [convertRowFields, foldl_convStep_pass pf k hk1 hk2 fields [] hnd]
  cases mget fields k <;> simp [mget]

/-- C5: converting a search-result row renames the field literally named
`distance` to `score` with its value parsed as a float32, passes every
other field through unchanged under its original name, uses an explicit
`id` field when the row has one and otherwise sets `id` to the row's
native store key; concretely, a row with distance `"0.12"` and no `id`
yields exactly the score parsed from `"0.12"` and the native key as `id`.
(The hypotheses state what a Go map guarantees: field names are unique,
and a row cannot carry both a `distance` and a literal `score` field
without the outcome depending on Go's unspecified iteration order.) -/
theorem claim_C5 (pf : ParseF32) (d : FtSearchDoc) :
    ((d.Doc.map Prod.fst).Nodup →
      (∀ kv ∈ d.Doc, kv.1 ≠ "score") →
      (∀ s, ("distance", s) ∈ d.Doc →
        mget (convertRow pf d) "score" = some (RVal.f32 (pf s).1))
      ∧ (∀ k, k ≠ "distance" → k ≠ "score" → k ≠ "id" →
          mget (convertRow pf d) k = (mget d.Doc k).map RVal.str)
      ∧ (∀ s, mget d.Doc "id" = some s →
          mget (convertRow pf d) "id" = some (RVal.str s))
      ∧ ((∀ kv ∈ d.Doc, kv.1 ≠ "id") →
          mget (convertRow pf d) "id" = some (RVal.str d.Key)))
    ∧ convertRow pf ⟨"idx:k1", [("distance", "0.12")]⟩ =
        [("score", RVal.f32 (pf "0.12").1), ("id", RVal.str "idx:k1")] := by
  constructor
  · intro hnd hsc
    have hid : mget (convertRowFields pf d.Doc) "id"
        = (mget d.Doc "id").map RVal.str :=
      convertRowFields_mget pf "id" (by decide) (by decide) d.Doc hnd
    refine ⟨?_, ?_, ?_, ?_⟩
    · intro s hmem
      rw [convertRow]
      split
      · exact foldl_convStep_score pf d.Doc [] s hnd hsc hmem
      · rw [mget_mset_ne _ "id" "score" _ (by decide)]
        exact foldl_convStep_score pf d.Doc [] s hnd hsc hmem
    · intro k hkd hks hki
      rw [convertRow]
      split
      · exact convertRowFields_mget pf k hkd hks d.Doc hnd
      · rw [mget_mset_ne _ "id" k _ hki]
        exact convertRowFields_mget pf k hkd hks d.Doc hnd
    · intro s hs
      rw [convertRow]
      split
      · rw [hid, hs]
        rfl
      · rename_i hnone
        rw [hid, hs] at hnone
        exact absurd (by simp) hnone
    · intro hnoid
      have hdocnone : mget d.Doc "id" = none := by
        rw [mget, List.find?_eq_none.mpr (by simpa using hnoid)]
        rfl
      rw [convertRow]
      split
      · rename_i hsome
        rw [hid, hdocnone] at hsome
        exact absurd hsome (by simp)
      · exact mget_mset_self _ "id" _
  · rfl

theorem claim_C5_witness :
    mget (convertRow (fun _ => (7, true))
        ⟨"idx:k1", [("distance", "0.12"), ("t", "v")]⟩) "score"
      = some (RVal.f32 7)
    ∧ mget (convertRow (fun _ => (7, true))
        ⟨"idx:k1", [("distance", "0.12"), ("t", "v")]⟩) "id"
      = some (RVal.str "idx:k1")
    ∧ mget (convertRow (fun _ => (7, true))
        ⟨"idx:k1", [("distance", "0.12"), ("t", "v")]⟩) "t"
      = some (RVal.str "v") := by
  have h := claim_C5 (fun _ => (7, true))
    ⟨"idx:k1", [("distance", "0.12"), ("t", "v")]⟩
  have hc := h.1 (by decide) (by decide)
  refine ⟨?_, hc.2.2.2 (by decide), ?_⟩
  · have := hc.1 "0.12" (by decide)
    simpa using this
  · have := hc.2.1 "t" (by decide) (by decide) (by decide)
    simpa [mget] using this

/-- C10: the conversion step of `Find` is total (one output mapping per
input row, no error surfaced for any row contents), and the `score` value
is whatever `float32` value `strconv.ParseFloat` yields with its error
discarded — in particular, by the strconv contract a syntactically
unparseable distance string parses to the zero value, so the mapping
carries score 0.0. -/
theorem claim_C10 (pf : ParseF32) (docs : List FtSearchDoc) :
    (convertFTSearchResIntoMapSchema pf docs).length = docs.length
    ∧ (∀ key s bits flag, pf s = (bits, flag) →
        mget (convertRow pf ⟨key, [("distance", s)]⟩) "score"
          = some (RVal.f32 bits)) := by
  constructor
  · rw [convertFTSearchResIntoMapSchema, List.length_map]
  · intro key s bits flag hpf
    simp [convertRow, convertRowFields, convStep, mget, mset, hpf]

theorem claim_C10_witness :
    mget (convertRow (fun _ => (0, true)) ⟨"k1", [("distance", "abc")]⟩)
        "score" = some (RVal.f32 0)
    ∧ (convertFTSearchResIntoMapSchema (fun _ => (0, true))
        [⟨"k1", [("distance", "abc")]⟩]).length = 1 := by
  have h := claim_C10 (fun _ => (0, true)) [⟨"k1", [("distance", "abc")]⟩]
  exact ⟨h.2 "k1" "abc" 0 true rfl, h.1⟩

/-! ## C6: idempotent index creation -/

/-- C6: for a non-empty index name, `CreateIndexIfNotExists` first probes
existence and, when the index exists, returns success without issuing any
creation command and without touching the store; consequently calling it
twice in sequence with the same index name and schema leaves the store in
the same final state as calling it once. -/
theorem claim_C6 (st : RedisStore) (index : String) (schema : IndexSchema)
    (hne : index ≠ "") :
    (CheckIndexExists st index = true →
      CreateIndexIfNotExists st index schema = (st, none, []))
    ∧ (CreateIndexIfNotExists
          (CreateIndexIfNotExists st index schema).1 index schema).1
        = (CreateIndexIfNotExists st index schema).1 := by
  constructor
  · intro hex
    rw [CreateIndexIfNotExists, if_neg hne, if_pos hex]
  · by_cases hex : CheckIndexExists st index = true
    · have hfirst : CreateIndexIfNotExists st index schema = (st, none, []) := by
        rw [CreateIndexIfNotExists, if_neg hne, if_pos hex]
      rw [hfirst]
      rw [CreateIndexIfNotExists, if_neg hne, if_pos hex]
    · have h1 : (CreateIndexIfNotExists st index schema).1
          = RedisStore.mk ((index,
              ⟨index, schema, [getPfx index], "HASH"⟩) :: st.indexes) := by
        rw [CreateIndexIfNotExists, if_neg hne, if_neg hex]
        rfl
      have hex2 : CheckIndexExists (CreateIndexIfNotExists st index schema).1
          index = true := by
        rw [h1, CheckIndexExists, if_neg hne, RedisStore.hasIndex]
        simp [List.find?_cons]
      rw [CreateIndexIfNotExists, if_neg hne, if_pos hex2]

theorem claim_C6_witness :
    (CreateIndexIfNotExists
        (CreateIndexIfNotExists ⟨[]⟩ "docs" ⟨["text"], 4, "COSINE"⟩).1
        "docs" ⟨["text"], 4, "COSINE"⟩).1
      = (CreateIndexIfNotExists ⟨[]⟩ "docs" ⟨["text"], 4, "COSINE"⟩).1
    ∧ CreateIndexIfNotExists
        (CreateIndexIfNotExists ⟨[]⟩ "docs" ⟨["text"], 4, "COSINE"⟩).1
        "docs" ⟨["text"], 4, "COSINE"⟩
      = ((CreateIndexIfNotExists ⟨[]⟩ "docs" ⟨["text"], 4, "COSINE"⟩).1,
          none, []) := by
  have h := claim_C6 ⟨[]⟩ "docs" ⟨["text"], 4, "COSINE"⟩ (by decide)
  have h2 := claim_C6
    (CreateIndexIfNotExists ⟨[]⟩ "docs" ⟨["text"], 4, "COSINE"⟩).1
    "docs" ⟨["text"], 4, "COSINE"⟩ (by decide)
  exact ⟨h.2, h2.1 (by decide)⟩

/-! ## C4 and C7: dispatch-layer validation and construction -/

/-- C4 as stated is false: a spec whose threshold lies in `(0, 1]` is still
rejected when its type tag is unrecognized, so `ValidateSpec` does not
accept every spec with a valid threshold. -/
theorem claim_C4_counterexample :
    (0 : Rat) < (⟨⟨"mysql", 1/2⟩, none, none⟩ : Spec).common.Threshold
    ∧ (⟨⟨"mysql", 1/2⟩, none, none⟩ : Spec).common.Threshold ≤ 1
    ∧ ValidateSpec (fun _ => none) (fun _ => none)
        ⟨⟨"mysql", 1/2⟩, none, none⟩
      = some (GoErr.msg "invalid spec type") := by
  refine ⟨by norm_num, by norm_num, ?_⟩
  rw [ValidateSpec, if_neg (by norm_num)]
  rfl

/-- C4 amended: `ValidateSpec` rejects whenever the threshold is outside
`(0, 1]`, and this threshold check precedes the engine-specific
validation — an out-of-range threshold yields the threshold error no
matter what the engine validators would say; when the threshold lies in
`(0, 1]`, the outcome is the type dispatch: the engine-specific
validator's verdict for the `redis` and `postgres` tags, and a rejection
for every other tag (so an in-range threshold alone does not imply
acceptance). -/
theorem claim_C4_amended
    (redisValidate : Option RedisVectorDBSpec → Option GoErr)
    (pgValidate : Option PostgresVectorDBSpec → Option GoErr) (spec : Spec) :
    ((spec.common.Threshold ≤ 0 ∨ 1 < spec.common.Threshold) →
      ValidateSpec redisValidate pgValidate spec
        = some (GoErr.msg "invalid threshold"))
    ∧ (0 < spec.common.Threshold → spec.common.Threshold ≤ 1 →
      ValidateSpec redisValidate pgValidate spec
        = if spec.common.typeTag = TypeRedis then redisValidate spec.Redis
          else if spec.common.typeTag = TypePostgres then
            pgValidate spec.Postgres
          else some (GoErr.msg "invalid spec type")) := by
  constructor
  · intro hbad
    rw [ValidateSpec, if_pos hbad]
  · intro h1 h2
    rw [ValidateSpec, if_neg (by push_neg; exact ⟨h1, h2⟩)]

theorem claim_C4_witness :
    ValidateSpec (fun _ => none) (fun _ => none) ⟨⟨"redis", 2⟩, none, none⟩
      = some (GoErr.msg "invalid threshold")
    ∧ ValidateSpec (fun _ => none) (fun _ => none) ⟨⟨"redis", 1/2⟩, none, none⟩
      = none := by
  have h1 := claim_C4_amended (fun _ => none) (fun _ => none)
    ⟨⟨"redis", 2⟩, none, none⟩
  have h2 := claim_C4_amended (fun _ => none) (fun _ => none)
    ⟨⟨"redis", 1/2⟩, none, none⟩
  refine ⟨h1.1 (by norm_num), ?_⟩
  rw [h2.2 (by norm_num) (by norm_num)]
  rfl

/-- C7: for a spec whose type tag is neither `redis` nor `postgres`, `New`
fails fatally — it panics with "not supported vector db type" instead of
returning a value — while `ValidateSpec` on the same spec returns an
ordinary (non-nil) error value rather than panicking. -/
theorem claim_C7 (redisValidate : Option RedisVectorDBSpec → Option GoErr)
    (pgValidate : Option PostgresVectorDBSpec → Option GoErr) (spec : Spec)
    (h1 : spec.common.typeTag ≠ TypeRedis)
    (h2 : spec.common.typeTag ≠ TypePostgres) :
    New spec = NewResult.panicked "not supported vector db type"
    ∧ ∃ e, ValidateSpec redisValidate pgValidate spec = some e := by
  constructor
  · rw [New, if_neg h1, if_neg h2]
  · by_cases hth : spec.common.Threshold ≤ 0 ∨ 1 < spec.common.Threshold
    · exact ⟨GoErr.msg "invalid threshold", by rw [ValidateSpec, if_pos hth]⟩
    · exact ⟨GoErr.msg "invalid spec type",
        by rw [ValidateSpec, if_neg hth, if_neg h1, if_neg h2]⟩

theorem claim_C7_witness :
    New ⟨⟨"mysql", 1/2⟩, none, none⟩
      = NewResult.panicked "not supported vector db type"
    ∧ ∃ e, ValidateSpec (fun _ => none) (fun _ => none)
        ⟨⟨"mysql", 1/2⟩, none, none⟩ = some e := by
  exact claim_C7 (fun _ => none) (fun _ => none) ⟨⟨"mysql", 1/2⟩, none, none⟩
    (by decide) (by decide)

end EG
